import Mathlib

set_option maxHeartbeats 1000000

/-!
# Verification of `AsyncConnectionPool` (db_functions.py)

A shallow embedding of the asyncio-based connection pool:

* `__init__` sets `max_connections`, an `asyncio.Queue(max_connections)` of
  available connections, an `asyncio.Semaphore(max_connections)` and the
  counter `waiting_requests = 0`.
* `initialize` creates `max_connections` connections and puts each into the
  queue (no error handling: a failing creation propagates, already-created
  connections stay in the queue).
* `acquire_connection` optionally bumps `waiting_requests` (when the queue is
  empty), awaits the semaphore, awaits `queue.get()`, then floors-decrements
  `waiting_requests` and returns the connection.
* `release_connection` sleeps, calls `connection.commit()`, puts the
  connection back and releases the semaphore.
* `close_all_connections` drains the queue, closing each connection.

Connections are modelled by `Conn` (identity plus a `dirty` bit abstracting an
uncommitted sqlite3 transaction).  Concurrency is modelled by a labelled step
relation `Step` over `PoolState`: each step runs one task from one asyncio
suspension point to the next, covering every interleaving the event loop can
produce (both the barging and the fair-semaphore wakeup disciplines).
-/

/-- A database connection handle as produced by `sqlite3.connect`.
`id` is the identity of the underlying connection object; `dirty`
abstracts whether the connection carries an uncommitted transaction. -/
structure Conn where
  id : Nat
  dirty : Bool
deriving DecidableEq, Repr

/-- `connection.commit()`: finalizes the pending transaction on the handle. -/
def commit (c : Conn) : Conn := { c with dirty := false }

@[simp] theorem commit_id (c : Conn) : (commit c).id = c.id := rfl

/-- The fresh connection created for slot `i` during `initialize`
(`sqlite3.connect(self.database)`); no pending transaction. -/
def mkConn (i : Nat) : Conn := ⟨i, false⟩

/-- Program counter of one concurrent caller of the pool, recording at which
asyncio suspension point (if any) the task currently sits. -/
inductive TaskSt where
  /-- not inside any pool call -/
  | idle
  /-- inside `acquire_connection`, suspended at `semaphore.acquire()` -/
  | semWait
  /-- inside `acquire_connection`, permit taken, suspended at
  `available_connections.get()` -/
  | queueWait
  /-- `acquire_connection` returned `c`; the caller is using it -/
  | holding (c : Conn)
  /-- inside `release_connection c`, suspended at `asyncio.sleep(5)` -/
  | releasing (c : Conn)
  /-- inside `release_connection`, committed, suspended at
  `available_connections.put(c)` because the queue is full -/
  | putWait (c : Conn)
deriving DecidableEq, Repr

/-- The connection a task currently has on loan, if any.  A task inside
`release_connection` still owns the connection until the `put` completes. -/
def TaskSt.heldConn : TaskSt → Option Conn
  | .holding c => some c
  | .releasing c => some c
  | .putWait c => some c
  | _ => none

def TaskSt.isSemWait : TaskSt → Bool
  | .semWait => true
  | _ => false

def TaskSt.isQueueWait : TaskSt → Bool
  | .queueWait => true
  | _ => false

def TaskSt.isPutWait : TaskSt → Bool
  | .putWait _ => true
  | _ => false

/-- The full state of one `AsyncConnectionPool` object together with the
program counters of its concurrent callers. -/
structure PoolState where
  /-- `self.max_connections` -/
  maxConnections : Nat
  /-- `self.available_connections` (FIFO, head = next to be handed out) -/
  queue : List Conn
  /-- available permits of `self.semaphore` -/
  semValue : Nat
  /-- `self.waiting_requests` -/
  waitingRequests : Nat
  /-- the concurrent callers -/
  tasks : List TaskSt
  /-- connections dropped by a `release_connection` whose `commit()` raised:
  gone from the pool, their permit never given back -/
  lost : List Conn
deriving DecidableEq, Repr

/-- Connections currently on loan to some task. -/
def heldList (ts : List TaskSt) : List Conn := ts.filterMap TaskSt.heldConn

/-- Number of connections on loan (acquired but not yet returned). -/
def nHold (ts : List TaskSt) : Nat := (heldList ts).length

/-- Number of tasks blocked at `semaphore.acquire()`. -/
def nSemWait (ts : List TaskSt) : Nat := ts.countP TaskSt.isSemWait

/-- Number of tasks admitted by the semaphore but blocked at `queue.get()`. -/
def nQueueWait (ts : List TaskSt) : Nat := ts.countP TaskSt.isQueueWait

/-- Number of tasks blocked at `queue.put()`. -/
def nPutWait (ts : List TaskSt) : Nat := ts.countP TaskSt.isPutWait

/-- Identities of a list of connections, as a multiset. -/
def idsOf (l : List Conn) : Multiset Nat := ((l.map Conn.id : List Nat) : Multiset Nat)

/-- Identities of every connection in circulation: idle in the queue, on loan
to some task, or lost to a failed release. -/
def circIds (s : PoolState) : Multiset Nat :=
  idsOf s.queue + idsOf (heldList s.tasks) + idsOf s.lost

/-- The pool right after `__init__` plus a successful `initialize()`:
`max_connections` fresh connections queued, all permits available,
`waiting_requests = 0`, and `n` caller tasks none of which has started. -/
def initState (cap n : Nat) : PoolState :=
  { maxConnections := cap
    queue := (List.range cap).map mkConn
    semValue := cap
    waitingRequests := 0
    tasks := List.replicate n TaskSt.idle
    lost := [] }

/-- One step of one task, from one asyncio suspension point to the next.
`allowFail` enables the transition in which `connection.commit()` inside
`release_connection` raises.  The semaphore steps cover both the barging
discipline (a newcomer may take a free permit even while waiters queue) and
the fair discipline (a newcomer parks whenever the semaphore is locked or has
waiters), so every real event-loop interleaving is included. -/
inductive Step (allowFail : Bool) : PoolState → PoolState → Prop
  /-- `acquire_connection`, fast path: queue non-empty (so no
  `waiting_requests` increment), a permit is free, `queue.get()` succeeds;
  the trailing `waiting_requests = max(0, waiting_requests - 1)` runs. -/
  | acquireFast (s : PoolState) (pre post : List TaskSt) (c : Conn) (rest : List Conn) :
      s.tasks = pre ++ TaskSt.idle :: post →
      s.semValue ≠ 0 →
      s.queue = c :: rest →
      Step allowFail s
        { s with queue := rest
                 semValue := s.semValue - 1
                 waitingRequests := s.waitingRequests - 1
                 tasks := pre ++ TaskSt.holding c :: post }
  /-- `acquire_connection` when the queue is empty but a permit is free:
  `waiting_requests` is incremented, the permit is taken, and the task
  suspends at `queue.get()`.  (Unreachable from an initialized pool.) -/
  | acquireFastEmpty (s : PoolState) (pre post : List TaskSt) :
      s.tasks = pre ++ TaskSt.idle :: post →
      s.semValue ≠ 0 →
      s.queue = [] →
      Step allowFail s
        { s with semValue := s.semValue - 1
                 waitingRequests := s.waitingRequests + 1
                 tasks := pre ++ TaskSt.queueWait :: post }
  /-- `acquire_connection` parks at `semaphore.acquire()`: possible whenever
  the semaphore is locked (no permit) or, under the fair discipline, whenever
  other waiters are already queued.  The `waiting_requests` increment happens
  first, exactly when `available_connections` is empty. -/
  | acquirePark (s : PoolState) (pre post : List TaskSt) :
      s.tasks = pre ++ TaskSt.idle :: post →
      (s.semValue = 0 ∨ TaskSt.semWait ∈ s.tasks) →
      Step allowFail s
        { s with waitingRequests :=
                   if s.queue.isEmpty then s.waitingRequests + 1 else s.waitingRequests
                 tasks := pre ++ TaskSt.semWait :: post }
  /-- a task parked at `semaphore.acquire()` is woken with a free permit and
  finds a connection in the queue. -/
  | semWake (s : PoolState) (pre post : List TaskSt) (c : Conn) (rest : List Conn) :
      s.tasks = pre ++ TaskSt.semWait :: post →
      s.semValue ≠ 0 →
      s.queue = c :: rest →
      Step allowFail s
        { s with queue := rest
                 semValue := s.semValue - 1
                 waitingRequests := s.waitingRequests - 1
                 tasks := pre ++ TaskSt.holding c :: post }
  /-- a task parked at `semaphore.acquire()` is woken with a free permit but
  finds the queue empty and suspends at `queue.get()`.  (Unreachable from an
  initialized pool.) -/
  | semWakeEmpty (s : PoolState) (pre post : List TaskSt) :
      s.tasks = pre ++ TaskSt.semWait :: post →
      s.semValue ≠ 0 →
      s.queue = [] →
      Step allowFail s
        { s with semValue := s.semValue - 1
                 tasks := pre ++ TaskSt.queueWait :: post }
  /-- a task suspended at `queue.get()` is handed the connection that just
  arrived; the trailing floor-decrement of `waiting_requests` runs. -/
  | queueWake (s : PoolState) (pre post : List TaskSt) (c : Conn) (rest : List Conn) :
      s.tasks = pre ++ TaskSt.queueWait :: post →
      s.queue = c :: rest →
      Step allowFail s
        { s with queue := rest
                 waitingRequests := s.waitingRequests - 1
                 tasks := pre ++ TaskSt.holding c :: post }
  /-- the caller enters `release_connection c` and suspends at
  `asyncio.sleep(5)`. -/
  | releaseStart (s : PoolState) (pre post : List TaskSt) (c : Conn) :
      s.tasks = pre ++ TaskSt.holding c :: post →
      Step allowFail s { s with tasks := pre ++ TaskSt.releasing c :: post }
  /-- `release_connection` resumes after the sleep: `commit()` succeeds, the
  connection is put back (queue not full) and the permit is released. -/
  | releaseFinish (s : PoolState) (pre post : List TaskSt) (c : Conn) :
      s.tasks = pre ++ TaskSt.releasing c :: post →
      s.queue.length < s.maxConnections →
      Step allowFail s
        { s with queue := s.queue ++ [commit c]
                 semValue := s.semValue + 1
                 tasks := pre ++ TaskSt.idle :: post }
  /-- `release_connection` resumes, `commit()` succeeds, but
  `available_connections.put` finds the bounded queue full and suspends.
  (Unreachable from an initialized pool.) -/
  | releasePutFull (s : PoolState) (pre post : List TaskSt) (c : Conn) :
      s.tasks = pre ++ TaskSt.releasing c :: post →
      s.maxConnections ≤ s.queue.length →
      Step allowFail s { s with tasks := pre ++ TaskSt.putWait (commit c) :: post }
  /-- a task suspended at `queue.put` completes the put and releases the
  permit. -/
  | releasePutWake (s : PoolState) (pre post : List TaskSt) (c : Conn) :
      s.tasks = pre ++ TaskSt.putWait c :: post →
      s.queue.length < s.maxConnections →
      Step allowFail s
        { s with queue := s.queue ++ [c]
                 semValue := s.semValue + 1
                 tasks := pre ++ TaskSt.idle :: post }
  /-- `connection.commit()` inside `release_connection` raises: the exception
  propagates to the caller, the connection is never put back and the permit
  is never released. -/
  | releaseCommitRaise (s : PoolState) (pre post : List TaskSt) (c : Conn) :
      allowFail = true →
      s.tasks = pre ++ TaskSt.releasing c :: post →
      Step allowFail s
        { s with tasks := pre ++ TaskSt.idle :: post
                 lost := s.lost ++ [c] }

/-- Reflexive-transitive closure of `Step`. -/
inductive Reachable (allowFail : Bool) (s0 : PoolState) : PoolState → Prop
  | refl : Reachable allowFail s0 s0
  | tail {s s' : PoolState} : Reachable allowFail s0 s → Step allowFail s s' →
      Reachable allowFail s0 s'

/-! ## Functional embeddings of the single operations -/

/-- Result of one call to `acquire_connection` run in isolation (no other
task interleaved): either it returns a connection, or it suspends at
`semaphore.acquire()`, or it suspends at `available_connections.get()`.
The Python method has no `raise` and no error class, so the embedding has no
error outcome. -/
inductive AcquireOutcome where
  | acquired (c : Conn) (p : PoolState)
  | blockedAtSem (p : PoolState)
  | blockedAtGet (p : PoolState)
deriving DecidableEq, Repr

/-- `acquire_connection`, run in isolation, line by line: the conditional
`waiting_requests` increment, then `semaphore.acquire()`, then
`queue.get()`, then `waiting_requests = max(0, waiting_requests - 1)`. -/
def acquireConnection (p : PoolState) : AcquireOutcome :=
  let p1 := if p.queue.isEmpty
            then { p with waitingRequests := p.waitingRequests + 1 }
            else p
  if p1.semValue = 0 then
    AcquireOutcome.blockedAtSem p1
  else
    match p1.queue with
    | [] => AcquireOutcome.blockedAtGet { p1 with semValue := p1.semValue - 1 }
    | c :: rest =>
        AcquireOutcome.acquired c
          { p1 with semValue := p1.semValue - 1
                    queue := rest
                    waitingRequests := p1.waitingRequests - 1 }

/-- `release_connection c`, run in isolation with `commit()` succeeding:
sleep (no state change), `c.commit()`, put the committed connection back,
release the semaphore. -/
def releaseConnection (p : PoolState) (c : Conn) : PoolState :=
  { p with queue := p.queue ++ [commit c]
           semValue := p.semValue + 1 }

/-- `close_all_connections`: drain the queue, closing every drained
connection.  Returns the new state and the list of connections that this
call closed. -/
def closeAllConnections (p : PoolState) : PoolState × List Conn :=
  ({ p with queue := [] }, p.queue)

/-- The loop of `initialize`: `n` more connections to create, `i` the index
of the next creation attempt, `acc` the queue built so far.  `create i`
models the `i`-th `sqlite3.connect` call; `none` means it raised.  On a
raise the exception propagates at once: the result is `Except.error`
carrying the queue as it stood, with nothing closed. -/
def initLoop (create : Nat → Option Conn) : Nat → Nat → List Conn →
    Except (List Conn) (List Conn)
  | 0, _, acc => Except.ok acc
  | n + 1, i, acc =>
      match create i with
      | none => Except.error acc
      | some c => initLoop create n (i + 1) (acc ++ [c])

/-- `initialize`: create `cap` connections in order, queueing each. -/
def initPool (create : Nat → Option Conn) (cap : Nat) :
    Except (List Conn) (List Conn) :=
  initLoop create cap 0 []

/-- A creation collaborator that succeeds on every attempt. -/
def createOk : Nat → Option Conn := fun i => some (mkConn i)

/-- A creation collaborator whose `k`-th attempt raises. -/
def createFailAt (k : Nat) : Nat → Option Conn :=
  fun i => if i = k then none else some (mkConn i)

theorem initLoop_ok (create : Nat → Option Conn)
    (h : ∀ j, create j = some (mkConn j)) :
    ∀ (n i : Nat) (acc : List Conn),
      initLoop create n i acc = Except.ok (acc ++ (List.range' i n).map mkConn) := by
  intro n
  induction n with
  | zero => intro i acc; simp [initLoop]
  | succ m ih =>
      intro i acc
      simp [initLoop, h i, List.range'_succ, ih (i + 1) (acc ++ [mkConn i])]

/-- A successful `initialize` produces exactly the connections of
`initState`. -/
theorem initPool_ok (cap : Nat) :
    initPool createOk cap = Except.ok ((List.range cap).map mkConn) := by
  have h := initLoop_ok createOk (fun j => rfl) cap 0 []
  simpa [initPool, List.range_eq_range'] using h

theorem initLoop_failAt (k : Nat) :
    ∀ (n i : Nat) (acc : List Conn), i ≤ k → k < i + n →
      initLoop (createFailAt k) n i acc =
        Except.error (acc ++ (List.range' i (k - i)).map mkConn) := by
  intro n
  induction n with
  | zero => intro i acc h1 h2; omega
  | succ m ih =>
      intro i acc h1 h2
      by_cases hik : i = k
      · subst hik
        simp [initLoop, createFailAt]
      · have hik' : i ≠ k := hik
        have hlt : i < k := lt_of_le_of_ne h1 hik'
        have hstep : initLoop (createFailAt k) (m + 1) i acc =
            initLoop (createFailAt k) m (i + 1) (acc ++ [mkConn i]) := by
          simp [initLoop, createFailAt, hik']
        rw [hstep, ih (i + 1) (acc ++ [mkConn i]) (by omega) (by omega)]
        have hk : k - i = (k - (i + 1)) + 1 := by omega
        rw [hk, List.range'_succ]
        simp

/-- When creation of unit `k < cap` fails, `initialize` propagates the error
immediately, with the `k` connections created so far still queued and open. -/
theorem initPool_failAt (k cap : Nat) (h : k < cap) :
    initPool (createFailAt k) cap =
      Except.error ((List.range k).map mkConn) := by
  have hloop := initLoop_failAt k cap 0 [] (Nat.zero_le k) (by omega)
  simpa [initPool, List.range_eq_range'] using hloop


/-! ## Counting and multiset helpers -/

theorem idsOf_append (l₁ l₂ : List Conn) :
    idsOf (l₁ ++ l₂) = idsOf l₁ + idsOf l₂ := by
  simp only [idsOf, List.map_append]
  rw [← Multiset.coe_add]

theorem idsOf_cons (c : Conn) (l : List Conn) :
    idsOf (c :: l) = c.id ::ₘ idsOf l := rfl

@[simp] theorem idsOf_nil : idsOf [] = 0 := rfl

theorem heldList_append (l₁ l₂ : List TaskSt) :
    heldList (l₁ ++ l₂) = heldList l₁ ++ heldList l₂ := by
  simp [heldList]

/-- The state invariant of the pool, preserved by every step: permit
accounting, conservation of connection identities, absence of tasks stuck
inside the semaphore/queue window, and the waiting counter bound. -/
structure PoolInv (s : PoolState) : Prop where
  count : s.semValue + nQueueWait s.tasks + nHold s.tasks + s.lost.length =
    s.maxConnections
  circ : circIds s = ((List.range s.maxConnections : List Nat) : Multiset Nat)
  noQW : nQueueWait s.tasks = 0
  noPW : nPutWait s.tasks = 0
  wait_le : s.waitingRequests ≤ nSemWait s.tasks

theorem PoolInv.card_eq {s : PoolState} (h : PoolInv s) :
    s.queue.length + nHold s.tasks + s.lost.length = s.maxConnections := by
  have hc := congrArg Multiset.card h.circ
  simp [circIds, idsOf] at hc
  simp only [nHold]
  omega

theorem countP_replicate_of_neg (p : TaskSt → Bool) (t : TaskSt)
    (hp : p t = false) (n : Nat) : (List.replicate n t).countP p = 0 := by
  induction n with
  | zero => rfl
  | succ m ih => simp [List.replicate_succ, List.countP_cons, hp, ih]

theorem heldList_replicate_idle (n : Nat) :
    heldList (List.replicate n TaskSt.idle) = [] := by
  induction n with
  | zero => rfl
  | succ m ih =>
      rw [List.replicate_succ]
      simp only [heldList, List.filterMap_cons, TaskSt.heldConn] at ih ⊢
      exact ih

/-- The freshly initialized pool satisfies the invariant. -/
theorem inv_initState (cap n : Nat) : PoolInv (initState cap n) := by
  constructor
  · simp [initState, nQueueWait, nHold, heldList_replicate_idle,
      countP_replicate_of_neg TaskSt.isQueueWait TaskSt.idle rfl]
  · have hmap : List.map Conn.id ((List.range cap).map mkConn) =
        List.range cap := by
      rw [List.map_map]
      exact List.map_id _
    simp [circIds, initState, idsOf, heldList_replicate_idle, hmap]
  · simp [initState,
      countP_replicate_of_neg TaskSt.isQueueWait TaskSt.idle rfl, nQueueWait]
  · simp [initState,
      countP_replicate_of_neg TaskSt.isPutWait TaskSt.idle rfl, nPutWait]
  · simp [initState]

theorem idsOf_cons' (c : Conn) (l : List Conn) :
    idsOf (c :: l) = ({c.id} : Multiset Nat) + idsOf l := rfl

/-- Every step of every task preserves the pool invariant. -/
theorem inv_step {af : Bool} {s s' : PoolState} (hInv : PoolInv s)
    (hstep : Step af s s') : PoolInv s' := by
  obtain ⟨hcount, hcirc, hqw, hpw, hwle⟩ := hInv
  have hcard : s.queue.length + nHold s.tasks + s.lost.length =
      s.maxConnections := PoolInv.card_eq ⟨hcount, hcirc, hqw, hpw, hwle⟩
  cases hstep with
  | acquireFast pre post c rest htasks hsem hq =>
      rw [htasks] at hcount hqw hpw hwle
      simp only [circIds] at hcirc
      rw [htasks, hq] at hcirc
      refine ⟨?_, ?_, ?_, ?_, ?_⟩
      · simp only [nHold, nQueueWait, heldList, List.filterMap_append,
          List.filterMap_cons, List.countP_append, List.countP_cons,
          List.length_append, List.length_cons, TaskSt.heldConn,
          TaskSt.isQueueWait, Bool.false_eq_true, if_false, if_true] at hcount ⊢
        omega
      · simp only [circIds, idsOf_cons', idsOf_append, idsOf_nil, heldList,
          List.filterMap_append, List.filterMap_cons, TaskSt.heldConn,
          commit_id, add_zero] at hcirc ⊢
        rw [← hcirc]
        abel
      · simp only [nQueueWait, List.countP_append, List.countP_cons,
          TaskSt.isQueueWait, Bool.false_eq_true, if_false, if_true] at hqw ⊢
        omega
      · simp only [nPutWait, List.countP_append, List.countP_cons,
          TaskSt.isPutWait, Bool.false_eq_true, if_false, if_true] at hpw ⊢
        omega
      · simp only [nSemWait, List.countP_append, List.countP_cons,
          TaskSt.isSemWait, Bool.false_eq_true, if_false, if_true] at hwle ⊢
        omega
  | acquireFastEmpty pre post htasks hsem hq =>
      exfalso
      rw [hq] at hcard
      simp only [List.length_nil] at hcard
      omega
  | acquirePark pre post htasks hguard =>
      rw [htasks] at hcount hqw hpw hwle
      simp only [circIds] at hcirc
      rw [htasks] at hcirc
      refine ⟨?_, ?_, ?_, ?_, ?_⟩
      · simp only [nHold, nQueueWait, heldList, List.filterMap_append,
          List.filterMap_cons, List.countP_append, List.countP_cons,
          List.length_append, List.length_cons, TaskSt.heldConn,
          TaskSt.isQueueWait, Bool.false_eq_true, if_false, if_true] at hcount ⊢
        omega
      · simp only [circIds, idsOf_cons', idsOf_append, idsOf_nil, heldList,
          List.filterMap_append, List.filterMap_cons, TaskSt.heldConn,
          commit_id, add_zero] at hcirc ⊢
        rw [← hcirc]
      · simp only [nQueueWait, List.countP_append, List.countP_cons,
          TaskSt.isQueueWait, Bool.false_eq_true, if_false, if_true] at hqw ⊢
        omega
      · simp only [nPutWait, List.countP_append, List.countP_cons,
          TaskSt.isPutWait, Bool.false_eq_true, if_false, if_true] at hpw ⊢
        omega
      · simp only [nSemWait, List.countP_append, List.countP_cons,
          TaskSt.isSemWait, Bool.false_eq_true, if_false, if_true] at hwle ⊢
        cases hqe : s.queue.isEmpty
        · simp only [hqe, Bool.false_eq_true, if_false]
          omega
        · simp only [hqe, if_true]
          omega
  | semWake pre post c rest htasks hsem hq =>
      rw [htasks] at hcount hqw hpw hwle
      simp only [circIds] at hcirc
      rw [htasks, hq] at hcirc
      refine ⟨?_, ?_, ?_, ?_, ?_⟩
      · simp only [nHold, nQueueWait, heldList, List.filterMap_append,
          List.filterMap_cons, List.countP_append, List.countP_cons,
          List.length_append, List.length_cons, TaskSt.heldConn,
          TaskSt.isQueueWait, Bool.false_eq_true, if_false, if_true] at hcount ⊢
        omega
      · simp only [circIds, idsOf_cons', idsOf_append, idsOf_nil, heldList,
          List.filterMap_append, List.filterMap_cons, TaskSt.heldConn,
          commit_id, add_zero] at hcirc ⊢
        rw [← hcirc]
        abel
      · simp only [nQueueWait, List.countP_append, List.countP_cons,
          TaskSt.isQueueWait, Bool.false_eq_true, if_false, if_true] at hqw ⊢
        omega
      · simp only [nPutWait, List.countP_append, List.countP_cons,
          TaskSt.isPutWait, Bool.false_eq_true, if_false, if_true] at hpw ⊢
        omega
      · simp only [nSemWait, List.countP_append, List.countP_cons,
          TaskSt.isSemWait, Bool.false_eq_true, if_false, if_true] at hwle ⊢
        omega
  | semWakeEmpty pre post htasks hsem hq =>
      exfalso
      rw [hq] at hcard
      simp only [List.length_nil] at hcard
      omega
  | queueWake pre post c rest htasks hq =>
      exfalso
      rw [htasks] at hqw
      simp only [nQueueWait, List.countP_append, List.countP_cons,
        TaskSt.isQueueWait, Bool.false_eq_true, if_false, if_true] at hqw
      omega
  | releaseStart pre post c htasks =>
      rw [htasks] at hcount hqw hpw hwle
      simp only [circIds] at hcirc
      rw [htasks] at hcirc
      refine ⟨?_, ?_, ?_, ?_, ?_⟩
      · simp only [nHold, nQueueWait, heldList, List.filterMap_append,
          List.filterMap_cons, List.countP_append, List.countP_cons,
          List.length_append, List.length_cons, TaskSt.heldConn,
          TaskSt.isQueueWait, Bool.false_eq_true, if_false, if_true] at hcount ⊢
        omega
      · simp only [circIds, idsOf_cons', idsOf_append, idsOf_nil, heldList,
          List.filterMap_append, List.filterMap_cons, TaskSt.heldConn,
          commit_id, add_zero] at hcirc ⊢
        rw [← hcirc]
      · simp only [nQueueWait, List.countP_append, List.countP_cons,
          TaskSt.isQueueWait, Bool.false_eq_true, if_false, if_true] at hqw ⊢
        omega
      · simp only [nPutWait, List.countP_append, List.countP_cons,
          TaskSt.isPutWait, Bool.false_eq_true, if_false, if_true] at hpw ⊢
        omega
      · simp only [nSemWait, List.countP_append, List.countP_cons,
          TaskSt.isSemWait, Bool.false_eq_true, if_false, if_true] at hwle ⊢
        omega
  | releaseFinish pre post c htasks hlen =>
      rw [htasks] at hcount hqw hpw hwle
      simp only [circIds] at hcirc
      rw [htasks] at hcirc
      refine ⟨?_, ?_, ?_, ?_, ?_⟩
      · simp only [nHold, nQueueWait, heldList, List.filterMap_append,
          List.filterMap_cons, List.countP_append, List.countP_cons,
          List.length_append, List.length_cons, TaskSt.heldConn,
          TaskSt.isQueueWait, Bool.false_eq_true, if_false, if_true] at hcount ⊢
        omega
      · simp only [circIds, idsOf_cons', idsOf_append, idsOf_nil, heldList,
          List.filterMap_append, List.filterMap_cons, TaskSt.heldConn,
          commit_id, add_zero] at hcirc ⊢
        rw [← hcirc]
        abel
      · simp only [nQueueWait, List.countP_append, List.countP_cons,
          TaskSt.isQueueWait, Bool.false_eq_true, if_false, if_true] at hqw ⊢
        omega
      · simp only [nPutWait, List.countP_append, List.countP_cons,
          TaskSt.isPutWait, Bool.false_eq_true, if_false, if_true] at hpw ⊢
        omega
      · simp only [nSemWait, List.countP_append, List.countP_cons,
          TaskSt.isSemWait, Bool.false_eq_true, if_false, if_true] at hwle ⊢
        omega
  | releasePutFull pre post c htasks hlen =>
      exfalso
      rw [htasks] at hcard
      simp only [nHold, heldList, List.filterMap_append, List.filterMap_cons,
        TaskSt.heldConn, List.length_append, List.length_cons] at hcard
      omega
  | releasePutWake pre post c htasks hlen =>
      exfalso
      rw [htasks] at hpw
      simp only [nPutWait, List.countP_append, List.countP_cons,
        TaskSt.isPutWait, Bool.false_eq_true, if_false, if_true] at hpw
      omega
  | releaseCommitRaise pre post c hfail htasks =>
      rw [htasks] at hcount hqw hpw hwle
      simp only [circIds] at hcirc
      rw [htasks] at hcirc
      refine ⟨?_, ?_, ?_, ?_, ?_⟩
      · simp only [nHold, nQueueWait, heldList, List.filterMap_append,
          List.filterMap_cons, List.countP_append, List.countP_cons,
          List.length_append, List.length_cons, List.length_nil,
          TaskSt.heldConn, TaskSt.isQueueWait, Bool.false_eq_true, if_false, if_true] at hcount ⊢
        omega
      · simp only [circIds, idsOf_cons', idsOf_append, idsOf_nil, heldList,
          List.filterMap_append, List.filterMap_cons, TaskSt.heldConn,
          commit_id, add_zero] at hcirc ⊢
        rw [← hcirc]
        abel
      · simp only [nQueueWait, List.countP_append, List.countP_cons,
          TaskSt.isQueueWait, Bool.false_eq_true, if_false, if_true] at hqw ⊢
        omega
      · simp only [nPutWait, List.countP_append, List.countP_cons,
          TaskSt.isPutWait, Bool.false_eq_true, if_false, if_true] at hpw ⊢
        omega
      · simp only [nSemWait, List.countP_append, List.countP_cons,
          TaskSt.isSemWait, Bool.false_eq_true, if_false, if_true] at hwle ⊢
        omega

/-- The invariant holds in every reachable state. -/
theorem inv_reachable {af : Bool} {s0 s : PoolState} (h0 : PoolInv s0)
    (h : Reachable af s0 s) : PoolInv s := by
  induction h with
  | refl => exact h0
  | tail _ hs ih => exact inv_step ih hs

/-! ## Derived facts about reachable states -/

theorem reachable_maxConnections {af : Bool} {s0 s : PoolState}
    (h : Reachable af s0 s) : s.maxConnections = s0.maxConnections := by
  induction h with
  | refl => rfl
  | tail _ hs ih => cases hs <;> exact ih

/-- Failure-free executions never lose a connection. -/
theorem reachable_lost_nil {s0 s : PoolState} (h : Reachable false s0 s)
    (h0 : s0.lost = []) : s.lost = [] := by
  induction h with
  | refl => exact h0
  | tail _ hs ih => cases hs <;> simp_all

/-- A quiescent point: no acquire or release is in flight, every caller is
back to idle (every issued acquire has been matched by a completed
release). -/
def Quiescent (s : PoolState) : Prop := ∀ t ∈ s.tasks, t = TaskSt.idle

instance (s : PoolState) : Decidable (Quiescent s) := by
  unfold Quiescent
  infer_instance

theorem heldList_all_idle {ts : List TaskSt}
    (h : ∀ t ∈ ts, t = TaskSt.idle) : heldList ts = [] := by
  induction ts with
  | nil => rfl
  | cons a l ih =>
      have ha := h a (by simp)
      subst ha
      simp only [heldList, List.filterMap_cons, TaskSt.heldConn]
      exact ih fun t ht => h t (List.mem_cons_of_mem _ ht)

theorem countP_all_idle {ts : List TaskSt} (p : TaskSt → Bool)
    (hp : p TaskSt.idle = false) (h : ∀ t ∈ ts, t = TaskSt.idle) :
    ts.countP p = 0 := by
  induction ts with
  | nil => rfl
  | cons a l ih =>
      have ha := h a (by simp)
      subst ha
      simp only [List.countP_cons, hp, Bool.false_eq_true, if_false, add_zero]
      exact ih fun t ht => h t (List.mem_cons_of_mem _ ht)

theorem singleton_decomp {α : Type} {pre post : List α} {x y : α}
    (h : pre ++ x :: post = [y]) : pre = [] ∧ x = y ∧ post = [] := by
  cases pre with
  | nil => simp_all
  | cons a l =>
      simp only [List.cons_append, List.cons.injEq] at h
      obtain ⟨-, h2⟩ := h
      exact absurd h2 (by simp)

/-- A lone task suspended at `available_connections.get()` over an empty
queue can never make progress, and nothing can refill the queue: the state
is stuck forever.  This is the fate of `acquire_connection` called on a pool
that was never initialized or that has been shut down. -/
theorem single_task_stuck {af : Bool} {s0 : PoolState}
    (h0 : s0.tasks = [TaskSt.queueWait]) (hq : s0.queue = []) :
    ∀ s, Reachable af s0 s → s = s0 := by
  intro s h
  induction h with
  | refl => rfl
  | tail _ hs ih =>
      subst ih
      cases hs with
      | acquireFast pre post c rest htasks hsem hque =>
          rw [h0] at htasks
          obtain ⟨-, hx, -⟩ := singleton_decomp htasks.symm
          simp at hx
      | acquireFastEmpty pre post htasks hsem hque =>
          rw [h0] at htasks
          obtain ⟨-, hx, -⟩ := singleton_decomp htasks.symm
          simp at hx
      | acquirePark pre post htasks hguard =>
          rw [h0] at htasks
          obtain ⟨-, hx, -⟩ := singleton_decomp htasks.symm
          simp at hx
      | semWake pre post c rest htasks hsem hque =>
          rw [h0] at htasks
          obtain ⟨-, hx, -⟩ := singleton_decomp htasks.symm
          simp at hx
      | semWakeEmpty pre post htasks hsem hque =>
          rw [h0] at htasks
          obtain ⟨-, hx, -⟩ := singleton_decomp htasks.symm
          simp at hx
      | queueWake pre post c rest htasks hque =>
          rw [hq] at hque
          simp at hque
      | releaseStart pre post c htasks =>
          rw [h0] at htasks
          obtain ⟨-, hx, -⟩ := singleton_decomp htasks.symm
          simp at hx
      | releaseFinish pre post c htasks hlen =>
          rw [h0] at htasks
          obtain ⟨-, hx, -⟩ := singleton_decomp htasks.symm
          simp at hx
      | releasePutFull pre post c htasks hlen =>
          rw [h0] at htasks
          obtain ⟨-, hx, -⟩ := singleton_decomp htasks.symm
          simp at hx
      | releasePutWake pre post c htasks hlen =>
          rw [h0] at htasks
          obtain ⟨-, hx, -⟩ := singleton_decomp htasks.symm
          simp at hx
      | releaseCommitRaise pre post c hfail htasks =>
          rw [h0] at htasks
          obtain ⟨-, hx, -⟩ := singleton_decomp htasks.symm
          simp at hx

/-- One step preserves the fact that every idle connection is committed
(dirty-free): the only way a connection enters the queue is through
`release_connection`, which commits it first. -/
theorem clean_step {af : Bool} {s s' : PoolState} (hInv : PoolInv s)
    (hclean : ∀ c ∈ s.queue, c.dirty = false) (hstep : Step af s s') :
    ∀ c ∈ s'.queue, c.dirty = false := by
  cases hstep with
  | acquireFast pre post c rest htasks hsem hque =>
      intro d hd
      exact hclean d (by rw [hque]; exact List.mem_cons_of_mem _ hd)
  | acquireFastEmpty pre post htasks hsem hque =>
      exact fun d hd => hclean d hd
  | acquirePark pre post htasks hguard =>
      exact fun d hd => hclean d hd
  | semWake pre post c rest htasks hsem hque =>
      intro d hd
      exact hclean d (by rw [hque]; exact List.mem_cons_of_mem _ hd)
  | semWakeEmpty pre post htasks hsem hque =>
      exact fun d hd => hclean d hd
  | queueWake pre post c rest htasks hque =>
      intro d hd
      exact hclean d (by rw [hque]; exact List.mem_cons_of_mem _ hd)
  | releaseStart pre post c htasks =>
      exact fun d hd => hclean d hd
  | releaseFinish pre post c htasks hlen =>
      intro d hd
      simp only [List.mem_append, List.mem_singleton] at hd
      rcases hd with hd | hd
      · exact hclean d hd
      · subst hd; rfl
  | releasePutFull pre post c htasks hlen =>
      exact fun d hd => hclean d hd
  | releasePutWake pre post c htasks hlen =>
      exfalso
      have hpw := hInv.noPW
      rw [htasks] at hpw
      simp only [nPutWait, List.countP_append, List.countP_cons,
        TaskSt.isPutWait, if_true] at hpw
      omega
  | releaseCommitRaise pre post c hfail htasks =>
      exact fun d hd => hclean d hd

/-- In every reachable state of an initialized pool, every connection
sitting in the idle queue has been committed. -/
theorem queue_clean_reachable {af : Bool} {cap n : Nat} {s : PoolState}
    (h : Reachable af (initState cap n) s) :
    ∀ c ∈ s.queue, c.dirty = false := by
  induction h with
  | refl =>
      intro c hc
      simp only [initState, List.mem_map] at hc
      obtain ⟨i, -, rfl⟩ := hc
      rfl
  | tail hr hs ih =>
      exact clean_step (inv_reachable (inv_initState cap n) hr) ih hs

/-! ## Claim theorems -/

/-- Claim C1: for every sequence of `acquire_connection` /
`release_connection` calls on an initialized pool — under any interleaving
of any number of concurrent callers, with or without a failing `commit()` —
the number of connections simultaneously on loan (acquired but not yet
released) never exceeds `max_connections`. -/
theorem onLoan_le_capacity {af : Bool} {cap n : Nat} {s : PoolState}
    (h : Reachable af (initState cap n) s) : nHold s.tasks ≤ cap := by
  have hinv := inv_reachable (inv_initState cap n) h
  have hmax := reachable_maxConnections h
  simp only [initState] at hmax
  have hc := hinv.count
  omega

theorem onLoan_le_capacity_witness :
    nHold ([TaskSt.holding ⟨0, false⟩] : List TaskSt) ≤ 1 := by
  have hstep : Step false (initState 1 1)
      ⟨1, [], 0, 0, [TaskSt.holding ⟨0, false⟩], []⟩ :=
    Step.acquireFast (initState 1 1) [] [] ⟨0, false⟩ [] rfl (by decide) rfl
  exact onLoan_le_capacity (Reachable.tail Reachable.refl hstep)

/-- Claim C10: at every suspension point reachable by any interleaving of
the pool's operations on an initialized pool, the number of available
semaphore permits never exceeds the number of connections in the idle
queue, and no task admitted by the semaphore is ever left waiting at
`queue.get()` — an admitted caller always finds an idle connection. -/
theorem permits_le_idle {af : Bool} {cap n : Nat} {s : PoolState}
    (h : Reachable af (initState cap n) s) :
    s.semValue ≤ s.queue.length ∧ nQueueWait s.tasks = 0 := by
  have hinv := inv_reachable (inv_initState cap n) h
  have hcard := hinv.card_eq
  have hcount := hinv.count
  have hqw := hinv.noQW
  exact ⟨by omega, hqw⟩

theorem permits_le_idle_witness :
    (⟨1, [], 0, 0, [TaskSt.releasing ⟨0, false⟩], []⟩ : PoolState).semValue ≤
      (⟨1, [], 0, 0, [TaskSt.releasing ⟨0, false⟩], []⟩ : PoolState).queue.length ∧
    nQueueWait ([TaskSt.releasing ⟨0, false⟩] : List TaskSt) = 0 := by
  have h1 : Step false (initState 1 1)
      ⟨1, [], 0, 0, [TaskSt.holding ⟨0, false⟩], []⟩ :=
    Step.acquireFast (initState 1 1) [] [] ⟨0, false⟩ [] rfl (by decide) rfl
  have h2 : Step false (⟨1, [], 0, 0, [TaskSt.holding ⟨0, false⟩], []⟩ : PoolState)
      ⟨1, [], 0, 0, [TaskSt.releasing ⟨0, false⟩], []⟩ :=
    Step.releaseStart _ [] [] ⟨0, false⟩ rfl
  exact permits_le_idle (Reachable.tail (Reachable.tail Reachable.refl h1) h2)

/-- Claim C9 (amended): `waiting_requests` is never negative (the
`max(0, · - 1)` floor guarantees this) and never exceeds the number of
callers currently blocked in `acquire_connection`, but it does not always
equal that number: it undercounts after a release/re-acquire race (see the
counterexample). -/
theorem waiting_le_blocked {af : Bool} {cap n : Nat} {s : PoolState}
    (h : Reachable af (initState cap n) s) :
    s.waitingRequests ≤ nSemWait s.tasks :=
  (inv_reachable (inv_initState cap n) h).wait_le

theorem waiting_le_blocked_witness :
    (⟨1, [], 0, 1, [TaskSt.holding ⟨0, false⟩, TaskSt.semWait], []⟩ : PoolState).waitingRequests ≤
      nSemWait ([TaskSt.holding ⟨0, false⟩, TaskSt.semWait] : List TaskSt) := by
  have h1 : Step false (initState 1 2)
      ⟨1, [], 0, 0, [TaskSt.holding ⟨0, false⟩, TaskSt.idle], []⟩ :=
    Step.acquireFast (initState 1 2) [] [TaskSt.idle] ⟨0, false⟩ [] rfl
      (by decide) rfl
  have h2 : Step false
      (⟨1, [], 0, 0, [TaskSt.holding ⟨0, false⟩, TaskSt.idle], []⟩ : PoolState)
      ⟨1, [], 0, 1, [TaskSt.holding ⟨0, false⟩, TaskSt.semWait], []⟩ :=
    Step.acquirePark _ [TaskSt.holding ⟨0, false⟩] [] rfl (Or.inl rfl)
  exact waiting_le_blocked (Reachable.tail (Reachable.tail Reachable.refl h1) h2)

/-- Claim C9 counterexample: `waiting_requests` does not always equal the
number of currently-blocked acquirers.  With capacity 1 and three tasks:
task 0 acquires; task 1 blocks (counter 1); task 0 releases; task 2 calls
acquire before the woken task 1 runs, sees a non-empty queue and skips the
increment, yet parks at the (fair) semaphore behind task 1; task 1 then
takes the connection and floor-decrements the counter to 0.  The reachable
state has `waiting_requests = 0` while one caller (task 2) is still
blocked. -/
theorem waiting_count_mismatch :
    Reachable false (initState 1 3)
      ⟨1, [], 0, 0, [TaskSt.idle, TaskSt.holding ⟨0, false⟩, TaskSt.semWait], []⟩ ∧
    (⟨1, [], 0, 0, [TaskSt.idle, TaskSt.holding ⟨0, false⟩, TaskSt.semWait], []⟩
      : PoolState).waitingRequests = 0 ∧
    nSemWait ([TaskSt.idle, TaskSt.holding ⟨0, false⟩, TaskSt.semWait] :
      List TaskSt) = 1 := by
  refine ⟨?_, rfl, by decide⟩
  have t1 : Step false (initState 1 3)
      ⟨1, [], 0, 0, [TaskSt.holding ⟨0, false⟩, TaskSt.idle, TaskSt.idle], []⟩ :=
    Step.acquireFast _ [] [TaskSt.idle, TaskSt.idle] ⟨0, false⟩ [] rfl
      (by decide) rfl
  have t2 : Step false
      (⟨1, [], 0, 0, [TaskSt.holding ⟨0, false⟩, TaskSt.idle, TaskSt.idle], []⟩ : PoolState)
      ⟨1, [], 0, 1, [TaskSt.holding ⟨0, false⟩, TaskSt.semWait, TaskSt.idle], []⟩ :=
    Step.acquirePark _ [TaskSt.holding ⟨0, false⟩] [TaskSt.idle] rfl (Or.inl rfl)
  have t3 : Step false
      (⟨1, [], 0, 1, [TaskSt.holding ⟨0, false⟩, TaskSt.semWait, TaskSt.idle], []⟩ : PoolState)
      ⟨1, [], 0, 1, [TaskSt.releasing ⟨0, false⟩, TaskSt.semWait, TaskSt.idle], []⟩ :=
    Step.releaseStart _ [] [TaskSt.semWait, TaskSt.idle] ⟨0, false⟩ rfl
  have t4 : Step false
      (⟨1, [], 0, 1, [TaskSt.releasing ⟨0, false⟩, TaskSt.semWait, TaskSt.idle], []⟩ : PoolState)
      ⟨1, [⟨0, false⟩], 1, 1, [TaskSt.idle, TaskSt.semWait, TaskSt.idle], []⟩ :=
    Step.releaseFinish _ [] [TaskSt.semWait, TaskSt.idle] ⟨0, false⟩ rfl
      (by decide)
  have t5 : Step false
      (⟨1, [⟨0, false⟩], 1, 1, [TaskSt.idle, TaskSt.semWait, TaskSt.idle], []⟩ : PoolState)
      ⟨1, [⟨0, false⟩], 1, 1, [TaskSt.idle, TaskSt.semWait, TaskSt.semWait], []⟩ :=
    Step.acquirePark _ [TaskSt.idle, TaskSt.semWait] [] rfl (Or.inr (by decide))
  have t6 : Step false
      (⟨1, [⟨0, false⟩], 1, 1, [TaskSt.idle, TaskSt.semWait, TaskSt.semWait], []⟩ : PoolState)
      ⟨1, [], 0, 0, [TaskSt.idle, TaskSt.holding ⟨0, false⟩, TaskSt.semWait], []⟩ :=
    Step.semWake _ [TaskSt.idle] [TaskSt.semWait] ⟨0, false⟩ [] rfl (by decide) rfl
  exact Reachable.tail (Reachable.tail (Reachable.tail (Reachable.tail
    (Reachable.tail (Reachable.tail Reachable.refl t1) t2) t3) t4) t5) t6

theorem idsOf_initState (cap n : Nat) :
    idsOf (initState cap n).queue = ((List.range cap : List Nat) : Multiset Nat) := by
  have hmap : List.map Conn.id ((List.range cap).map mkConn) = List.range cap := by
    rw [List.map_map]
    exact List.map_id _
  simp [initState, idsOf, hmap]

/-- Claim C2: under any interleaving, no two concurrently-active callers
hold the same connection handle between their acquire and matching release
(`holding`, `releasing` or blocked inside the final put all count as
holding): a handle handed out by `acquire_connection` is never
simultaneously handed to two callers. -/
theorem exclusive_handles {af : Bool} {cap n : Nat} {s : PoolState}
    {pre mid post : List TaskSt} {t₁ t₂ : TaskSt} {c₁ c₂ : Conn}
    (h : Reachable af (initState cap n) s)
    (hts : s.tasks = pre ++ t₁ :: mid ++ t₂ :: post)
    (h1 : t₁.heldConn = some c₁) (h2 : t₂.heldConn = some c₂) :
    c₁.id ≠ c₂.id := by
  intro heq
  have hinv := inv_reachable (inv_initState cap n) h
  have hcirc := hinv.circ
  have key : Multiset.count c₁.id (circIds s) ≤ 1 := by
    rw [hcirc]
    have hnd : ((List.range s.maxConnections : List Nat) : Multiset Nat).Nodup := by
      rw [Multiset.coe_nodup]
      exact List.nodup_range _
    exact Multiset.nodup_iff_count_le_one.mp hnd _
  have expand : circIds s =
      idsOf s.queue +
        (idsOf (heldList pre) +
          (({c₁.id} : Multiset Nat) +
            (idsOf (heldList mid) +
              (({c₂.id} : Multiset Nat) + idsOf (heldList post))))) +
        idsOf s.lost := by
    rw [circIds, hts]
    simp only [heldList, List.filterMap_append, List.filterMap_cons, h1, h2,
      idsOf_append, idsOf_cons']
    abel
  rw [expand] at key
  simp only [Multiset.count_add, Multiset.count_singleton, heq,
    if_true] at key
  omega

theorem exclusive_handles_witness :
    Reachable false (initState 2 2)
      ⟨2, [], 0, 0, [TaskSt.holding ⟨0, false⟩, TaskSt.holding ⟨1, false⟩], []⟩ ∧
    (⟨0, false⟩ : Conn).id ≠ (⟨1, false⟩ : Conn).id := by
  have s1 : Step false (initState 2 2)
      ⟨2, [⟨1, false⟩], 1, 0, [TaskSt.holding ⟨0, false⟩, TaskSt.idle], []⟩ :=
    Step.acquireFast (initState 2 2) [] [TaskSt.idle] ⟨0, false⟩ [⟨1, false⟩]
      rfl (by decide) rfl
  have s2 : Step false
      (⟨2, [⟨1, false⟩], 1, 0, [TaskSt.holding ⟨0, false⟩, TaskSt.idle], []⟩ : PoolState)
      ⟨2, [], 0, 0, [TaskSt.holding ⟨0, false⟩, TaskSt.holding ⟨1, false⟩], []⟩ :=
    Step.acquireFast _ [TaskSt.holding ⟨0, false⟩] [] ⟨1, false⟩ [] rfl
      (by decide) rfl
  have hr : Reachable false (initState 2 2)
      ⟨2, [], 0, 0, [TaskSt.holding ⟨0, false⟩, TaskSt.holding ⟨1, false⟩], []⟩ :=
    Reachable.tail (Reachable.tail Reachable.refl s1) s2
  exact ⟨hr, @exclusive_handles false 2 2 _ [] [] []
    (TaskSt.holding ⟨0, false⟩) (TaskSt.holding ⟨1, false⟩)
    ⟨0, false⟩ ⟨1, false⟩ hr rfl rfl rfl⟩

/-- Claim C3: after a successful `initialize()` the idle queue holds exactly
`max_connections` connections and all permits are available; and at every
quiescent point of a failure-free execution (every issued acquire matched by
a completed release, no operation in flight) the idle queue again holds
exactly `max_connections` connections — the same connections that
`initialize` created, none created or destroyed in between. -/
theorem conservation_at_quiescence {cap n : Nat} {s : PoolState}
    (h : Reachable false (initState cap n) s) (hq : Quiescent s) :
    (initState cap n).queue.length = cap ∧
    (initState cap n).semValue = cap ∧
    s.queue.length = cap ∧ s.semValue = cap ∧
    idsOf s.queue = idsOf (initState cap n).queue := by
  have hinv := inv_reachable (inv_initState cap n) h
  have hmax := reachable_maxConnections h
  simp only [initState] at hmax
  have hlost := reachable_lost_nil h rfl
  have hheld : heldList s.tasks = [] := heldList_all_idle hq
  have hqw0 : nQueueWait s.tasks = 0 :=
    countP_all_idle TaskSt.isQueueWait rfl hq
  have hcount := hinv.count
  have hcard := hinv.card_eq
  have hnh : nHold s.tasks = 0 := by simp [nHold, hheld]
  have hcirc := hinv.circ
  simp only [circIds, hheld, hlost, idsOf_nil, add_zero] at hcirc
  refine ⟨by simp [initState], rfl, by rw [hlost] at hcard; simp at hcard; omega,
    by rw [hlost] at hcount; simp at hcount; omega, ?_⟩
  rw [idsOf_initState, ← hmax]
  exact hcirc

theorem conservation_at_quiescence_witness :
    Quiescent (⟨1, [⟨0, false⟩], 1, 0, [TaskSt.idle], []⟩ : PoolState) ∧
    (⟨1, [⟨0, false⟩], 1, 0, [TaskSt.idle], []⟩ : PoolState).queue.length = 1 ∧
    (⟨1, [⟨0, false⟩], 1, 0, [TaskSt.idle], []⟩ : PoolState).semValue = 1 := by
  have s1 : Step false (initState 1 1)
      ⟨1, [], 0, 0, [TaskSt.holding ⟨0, false⟩], []⟩ :=
    Step.acquireFast (initState 1 1) [] [] ⟨0, false⟩ [] rfl (by decide) rfl
  have s2 : Step false (⟨1, [], 0, 0, [TaskSt.holding ⟨0, false⟩], []⟩ : PoolState)
      ⟨1, [], 0, 0, [TaskSt.releasing ⟨0, false⟩], []⟩ :=
    Step.releaseStart _ [] [] ⟨0, false⟩ rfl
  have s3 : Step false (⟨1, [], 0, 0, [TaskSt.releasing ⟨0, false⟩], []⟩ : PoolState)
      ⟨1, [⟨0, false⟩], 1, 0, [TaskSt.idle], []⟩ :=
    Step.releaseFinish _ [] [] ⟨0, false⟩ rfl (by decide)
  have hr : Reachable false (initState 1 1)
      ⟨1, [⟨0, false⟩], 1, 0, [TaskSt.idle], []⟩ :=
    Reachable.tail (Reachable.tail (Reachable.tail Reachable.refl s1) s2) s3
  have hcq : Quiescent (⟨1, [⟨0, false⟩], 1, 0, [TaskSt.idle], []⟩ : PoolState) := by
    decide
  have := conservation_at_quiescence hr hcq
  exact ⟨hcq, this.2.2.1, this.2.2.2.1⟩

/-- Claim C4 counterexample: with `max_connections = 2` and creation of
unit 1 raising, `initialize` propagates the creation error, but the
connection created for unit 0 is left open inside the queue (nothing in the
code closes it, and no `InitializationError` class exists — the raw
`sqlite3` exception surfaces), and the partially-initialized pool is still
usable: `acquire_connection` on it happily hands out connection 0. -/
theorem init_failure_partial_pool :
    initPool (createFailAt 1) 2 = Except.error [⟨0, false⟩] ∧
    acquireConnection ⟨2, [⟨0, false⟩], 2, 0, [TaskSt.idle], []⟩ =
      AcquireOutcome.acquired ⟨0, false⟩ ⟨2, [], 1, 0, [TaskSt.idle], []⟩ :=
  ⟨rfl, rfl⟩

/-- Claim C4 (amended): if creation of unit `k < max_connections` fails,
`initialize` does fail fast — the underlying exception propagates at once —
but the `k` connections already created remain open in the queue (they are
not closed before the error surfaces) and the pool object remains partially
usable. -/
theorem init_failfast_open_handles (k cap : Nat) (h : k < cap) :
    initPool (createFailAt k) cap =
      Except.error ((List.range k).map mkConn) ∧
    ((List.range k).map mkConn).length = k :=
  ⟨initPool_failAt k cap h, by simp⟩

theorem init_failfast_open_handles_witness :
    1 < 2 ∧
    initPool (createFailAt 1) 2 = Except.error ((List.range 1).map mkConn) :=
  ⟨by decide, (init_failfast_open_handles 1 2 (by decide)).1⟩

/-- Claim C5 counterexample: `acquire_connection` called on a pool that has
been shut down (`close_all_connections` drained the queue) raises nothing —
no `PoolClosedError` or `InvalidStateError` class exists anywhere in the
code and the method contains no `raise`.  Instead the call increments
`waiting_requests`, consumes a semaphore permit and suspends at
`available_connections.get()` on the empty queue; from that state no
transition whatsoever is possible, so the caller hangs silently forever.
The very same pool value (`queue` empty, all permits free) is also the
state of a pool that was constructed but never initialized, so the same
hang refutes the `InvalidStateError` half of the claim. -/
theorem acquire_after_shutdown_hangs :
    acquireConnection ((closeAllConnections (initState 1 1)).1) =
      AcquireOutcome.blockedAtGet ⟨1, [], 0, 1, [TaskSt.idle], []⟩ ∧
    Step false ((closeAllConnections (initState 1 1)).1)
      ⟨1, [], 0, 1, [TaskSt.queueWait], []⟩ ∧
    (∀ s,
      Reachable false (⟨1, [], 0, 1, [TaskSt.queueWait], []⟩ : PoolState) s →
        s = ⟨1, [], 0, 1, [TaskSt.queueWait], []⟩) := by
  refine ⟨rfl, ?_, single_task_stuck rfl rfl⟩
  exact Step.acquireFastEmpty _ [] [] rfl (by decide) rfl

/-- Claim C5 (amended): calling `acquire_connection` before `initialize` or
after `close_all_connections` raises no error (the code defines no
`InvalidStateError` or `PoolClosedError` and has no state machine): the
call consumes a permit and blocks forever at `queue.get()` on the empty
queue — a silent hang.  The pool state after `__init__` alone and after
shutdown coincide (empty queue, all permits free). -/
theorem acquire_on_closed_pool_blocks (cap : Nat) (h : 1 ≤ cap) :
    Step false ((closeAllConnections (initState cap 1)).1)
      { maxConnections := cap, queue := [], semValue := cap - 1,
        waitingRequests := 1, tasks := [TaskSt.queueWait], lost := [] } ∧
    ∀ s,
      Reachable false
        ({ maxConnections := cap, queue := [], semValue := cap - 1,
           waitingRequests := 1, tasks := [TaskSt.queueWait], lost := [] } :
          PoolState) s →
      s = { maxConnections := cap, queue := [], semValue := cap - 1,
            waitingRequests := 1, tasks := [TaskSt.queueWait], lost := [] } := by
  refine ⟨?_, single_task_stuck rfl rfl⟩
  have hsem : ((closeAllConnections (initState cap 1)).1).semValue ≠ 0 := by
    simp only [closeAllConnections, initState]
    omega
  exact Step.acquireFastEmpty _ [] [] rfl hsem rfl

theorem acquire_on_closed_pool_blocks_witness :
    1 ≤ 1 ∧
    Step false ((closeAllConnections (initState 1 1)).1)
      { maxConnections := 1, queue := [], semValue := 0,
        waitingRequests := 1, tasks := [TaskSt.queueWait], lost := [] } :=
  ⟨by decide, (acquire_on_closed_pool_blocks 1 (by decide)).1⟩

/-- Claim C6: shutdown is idempotent.  `close_all_connections` drains the
queue; a second call finds the queue already empty, so its while-loop body
never runs: it closes no connection (no double-close), changes nothing, and
— being a straight-line loop over an empty queue — cannot raise.  The idle
queue is empty after either call. -/
theorem shutdown_idempotent (p : PoolState) :
    (closeAllConnections p).1.queue = [] ∧
    (closeAllConnections ((closeAllConnections p).1)).2 = [] ∧
    (closeAllConnections ((closeAllConnections p).1)).1 =
      (closeAllConnections p).1 :=
  ⟨rfl, rfl, rfl⟩

/-- Claim C7 counterexample: `release_connection` does mutate the handle
passed to it: line 53 calls `connection.commit()` inside the pool.
Releasing a handle with a pending transaction (`dirty = true`) enqueues the
committed handle (`dirty = false`) — the pool, not the caller, performed
the commit. -/
theorem release_commits_handle :
    (releaseConnection ⟨1, [], 0, 0, [TaskSt.idle], []⟩ ⟨0, true⟩).queue =
      [⟨0, false⟩] ∧
    (⟨0, false⟩ : Conn) ≠ (⟨0, true⟩ : Conn) :=
  ⟨rfl, by decide⟩

/-- Claim C7 (amended): `release_connection` itself commits the handle —
this commit is its one mutation of handle state — and its only other
effects are appending the committed handle to the idle queue and granting
back one permit (`max_connections`, `waiting_requests` and the tasks are
untouched).  Consequently, in every reachable state of an initialized pool
every idle connection has no pending transaction. -/
theorem release_commits_then_requeues {af : Bool} {cap n : Nat}
    {s : PoolState} (p : PoolState) (c : Conn)
    (h : Reachable af (initState cap n) s) :
    releaseConnection p c =
      { p with queue := p.queue ++ [commit c],
               semValue := p.semValue + 1 } ∧
    ∀ d ∈ s.queue, d.dirty = false :=
  ⟨rfl, queue_clean_reachable h⟩

theorem release_commits_then_requeues_witness :
    releaseConnection ⟨1, [], 0, 0, [TaskSt.idle], []⟩ ⟨0, true⟩ =
      ⟨1, [⟨0, false⟩], 1, 0, [TaskSt.idle], []⟩ :=
  (@release_commits_then_requeues false 1 1 (initState 1 1)
    ⟨1, [], 0, 0, [TaskSt.idle], []⟩ ⟨0, true⟩ Reachable.refl).1

/-- Claim C8 counterexample: a failed release leaves the pool inconsistent.
With capacity 1: the caller acquires the only connection, then
`release_connection` runs and `connection.commit()` raises (any sqlite
error).  The exception propagates before `queue.put` and
`semaphore.release` execute, so the reachable quiescent state has zero
available permits and an empty idle queue on a capacity-1 pool: the permit
is leaked and the handle dropped from the pool. -/
theorem failed_release_leaks :
    Reachable true (initState 1 1)
      ⟨1, [], 0, 0, [TaskSt.idle], [⟨0, false⟩]⟩ ∧
    Quiescent (⟨1, [], 0, 0, [TaskSt.idle], [⟨0, false⟩]⟩ : PoolState) ∧
    (⟨1, [], 0, 0, [TaskSt.idle], [⟨0, false⟩]⟩ : PoolState).semValue = 0 ∧
    (⟨1, [], 0, 0, [TaskSt.idle], [⟨0, false⟩]⟩ : PoolState).queue = [] := by
  refine ⟨?_, by decide, rfl, rfl⟩
  have u1 : Step true (initState 1 1)
      ⟨1, [], 0, 0, [TaskSt.holding ⟨0, false⟩], []⟩ :=
    Step.acquireFast (initState 1 1) [] [] ⟨0, false⟩ [] rfl (by decide) rfl
  have u2 : Step true (⟨1, [], 0, 0, [TaskSt.holding ⟨0, false⟩], []⟩ : PoolState)
      ⟨1, [], 0, 0, [TaskSt.releasing ⟨0, false⟩], []⟩ :=
    Step.releaseStart _ [] [] ⟨0, false⟩ rfl
  have u3 : Step true (⟨1, [], 0, 0, [TaskSt.releasing ⟨0, false⟩], []⟩ : PoolState)
      ⟨1, [], 0, 0, [TaskSt.idle], [⟨0, false⟩]⟩ :=
    Step.releaseCommitRaise _ [] [] ⟨0, false⟩ rfl rfl
  exact Reachable.tail (Reachable.tail (Reachable.tail Reachable.refl u1) u2) u3

/-- Claim C8 (amended): in failure-free operation the semaphore count and
idle queue stay in step (see the conservation and permit invariants), but a
`release_connection` whose `commit()` raises leaks exactly one permit and
drops exactly one handle.  The precise accounting over every reachable
state: available permits + admitted-but-waiting callers + handles on loan +
handles lost to failed releases = `max_connections`, and idle handles +
handles on loan + handles lost = `max_connections` — each failed release
permanently converts one permit and one handle into a `lost` entry. -/
theorem failed_release_accounting {af : Bool} {cap n : Nat} {s : PoolState}
    (h : Reachable af (initState cap n) s) :
    s.semValue + nQueueWait s.tasks + nHold s.tasks + s.lost.length = cap ∧
    s.queue.length + nHold s.tasks + s.lost.length = cap := by
  have hinv := inv_reachable (inv_initState cap n) h
  have hmax := reachable_maxConnections h
  simp only [initState] at hmax
  have h1 := hinv.count
  have h2 := hinv.card_eq
  exact ⟨by omega, by omega⟩

theorem failed_release_accounting_witness :
    (⟨1, [], 0, 0, [TaskSt.idle], [⟨0, false⟩]⟩ : PoolState).semValue +
        nQueueWait ([TaskSt.idle] : List TaskSt) +
        nHold ([TaskSt.idle] : List TaskSt) +
        (⟨1, [], 0, 0, [TaskSt.idle], [⟨0, false⟩]⟩ : PoolState).lost.length = 1 ∧
    (⟨1, [], 0, 0, [TaskSt.idle], [⟨0, false⟩]⟩ : PoolState).queue.length +
        nHold ([TaskSt.idle] : List TaskSt) +
        (⟨1, [], 0, 0, [TaskSt.idle], [⟨0, false⟩]⟩ : PoolState).lost.length = 1 := by
  have u1 : Step true (initState 1 1)
      ⟨1, [], 0, 0, [TaskSt.holding ⟨0, false⟩], []⟩ :=
    Step.acquireFast (initState 1 1) [] [] ⟨0, false⟩ [] rfl (by decide) rfl
  have u2 : Step true (⟨1, [], 0, 0, [TaskSt.holding ⟨0, false⟩], []⟩ : PoolState)
      ⟨1, [], 0, 0, [TaskSt.releasing ⟨0, false⟩], []⟩ :=
    Step.releaseStart _ [] [] ⟨0, false⟩ rfl
  have u3 : Step true (⟨1, [], 0, 0, [TaskSt.releasing ⟨0, false⟩], []⟩ : PoolState)
      ⟨1, [], 0, 0, [TaskSt.idle], [⟨0, false⟩]⟩ :=
    Step.releaseCommitRaise _ [] [] ⟨0, false⟩ rfl rfl
  exact failed_release_accounting
    (Reachable.tail (Reachable.tail (Reachable.tail Reachable.refl u1) u2) u3)
